import Mathlib

/- Verification of the segregated-free-list allocator in src/malloc_lab.c.
The C functions are shallowly embedded as executable Lean definitions:
machine pointers are Nat with 0 encoding NULL, size_t arithmetic is Nat
with explicit reduction modulo 2 ^ 64 where overflow matters, and the
heap's block sequence is a list of header records. -/

namespace MM

/- ===== malloc size adjustment (malloc, lines 221-251) ===== -/

/-- align8 as the specification uses it: round up to the next multiple of 8. -/
def align8 (x : Nat) : Nat := (x + 7) / 8 * 8

/-- The request adjustment malloc performs before searching: a request of 0
returns NULL (none); a request of at most 2 * DSIZE = 16 becomes the minimum
block size 24; otherwise asize = ((size_t)(size + WSIZE) + 7) & ~0x7 in
size_t (64-bit) arithmetic. -/
def malloc_asize (size : Nat) : Option Nat :=
  if size = 0 then none
  else if size ≤ 16 then some 24
  else some (((size + 4) % 2 ^ 64 + 7) % 2 ^ 64 / 8 * 8)

/- ===== calloc (lines 315-328) ===== -/

/-- The addresses stored to by calloc's zeroing loop: temp starts at the
pointer malloc returned (0 encodes NULL) and the loop writes one byte per
element, advancing temp by the element size each time. The loop runs
unconditionally: there is no null test between the malloc call and the loop. -/
def calloc_writes (ptr m s : Nat) : List Nat := (List.range m).map (fun i => ptr + i * s)

/-- The payload offsets calloc actually zeroes, relative to the returned
pointer: i * s for i < m, one byte per element. -/
def calloc_zeroed_offsets (m s : Nat) : List Nat := (List.range m).map (fun i => i * s)

/- ===== realloc (lines 280-308) ===== -/

/-- The number of bytes realloc hands to memcpy on each control path:
size 0 frees the block (no copy); a size that still fits in the old block
(oldsize = GET_SIZE - OVERHEAD = block size - 8) returns the old pointer
(no copy); otherwise the code runs memcpy(newptr, oldptr, size), copying
exactly the requested size. -/
def realloc_copy_bytes (oldBlkSize n : Nat) : Option Nat :=
  if n = 0 then none
  else if n ≤ oldBlkSize - 8 then none
  else some n

/-- Modelled from the spec, section 4.5: the copy length the specification
prescribes for the move path of resize, namely min(old, n). -/
def spec_resize_copy_len (old n : Nat) : Nat := min old n

/- ===== size-class mapping (get_index, lines 543-568) ===== -/

/-- get_index exactly as the source has it, with the constants LIST0_SIZE ..
LIST10_SIZE from lines 118-128. Note the source defines LIST7_SIZE as 16834. -/
def get_index (asize : Nat) : Nat :=
  if asize ≤ 128 then 0
  else if asize ≤ 256 then 1
  else if asize ≤ 512 then 2
  else if asize ≤ 1024 then 3
  else if asize ≤ 2048 then 4
  else if asize ≤ 4096 then 5
  else if asize ≤ 8192 then 6
  else if asize ≤ 16834 then 7
  else if asize ≤ 32768 then 8
  else if asize ≤ 65536 then 9
  else if asize ≤ 131072 then 10
  else 11

/-- Modelled from the spec, section 3.3: the lowest-indexed bucket whose
tabulated upper bound (128, 256, ..., 16384, 32768, ..., 131072, infinity)
is at least the block size. -/
def spec_bucket (s : Nat) : Nat :=
  if s ≤ 128 then 0
  else if s ≤ 256 then 1
  else if s ≤ 512 then 2
  else if s ≤ 1024 then 3
  else if s ≤ 2048 then 4
  else if s ≤ 4096 then 5
  else if s ≤ 8192 then 6
  else if s ≤ 16384 then 7
  else if s ≤ 32768 then 8
  else if s ≤ 65536 then 9
  else if s ≤ 131072 then 10
  else 11

/- ===== free-list bucket state (add_free_blk lines 655-673,
rem_free_blk lines 679-699) ===== -/

/-- find_list_by_size (lines 624-649): maps a block size to the byte offset
of its bucket's head slot (LIST_0 = 0 .. LIST_11 = 88). -/
def find_list_by_size (sz : Nat) : Nat :=
  if sz ≤ 128 then 0
  else if sz ≤ 256 then 8
  else if sz ≤ 512 then 16
  else if sz ≤ 1024 then 24
  else if sz ≤ 2048 then 32
  else if sz ≤ 4096 then 40
  else if sz ≤ 8192 then 48
  else if sz ≤ 16834 then 56
  else if sz ≤ 32768 then 64
  else if sz ≤ 65536 then 72
  else if sz ≤ 131072 then 80
  else 88

/-- The portion of allocator state the free-list operations touch: the bucket
head slots (indexed by their byte offset) and, for every block payload
address, its NEXT_FREE and PREV_FREE link words. 0 encodes NULL. -/
structure FLState where
  heads : Nat → Nat
  nxt : Nat → Nat
  prv : Nat → Nat

/-- add_free_blk: LIFO insertion at the head of the bucket chosen by
find_list_by_size, mirroring the two branches of the source. -/
def add_free_blk (bp sz : Nat) (st : FLState) : FLState :=
  let off := find_list_by_size sz
  let fit := st.heads off
  if fit ≠ 0 then
    { heads := Function.update st.heads off bp
      prv := Function.update (Function.update st.prv bp 0) fit bp
      nxt := Function.update st.nxt bp fit }
  else
    { heads := Function.update st.heads off bp
      prv := Function.update st.prv bp 0
      nxt := Function.update st.nxt bp 0 }

/-- rem_free_blk: the four-case (only, head, tail, middle) splice of the
source. -/
def rem_free_blk (bp sz : Nat) (st : FLState) : FLState :=
  let off := find_list_by_size sz
  let nb := st.nxt bp
  let pb := st.prv bp
  if pb = 0 ∧ nb = 0 then
    { st with heads := Function.update st.heads off 0 }
  else if pb = 0 ∧ nb ≠ 0 then
    { heads := Function.update st.heads off nb
      prv := Function.update st.prv nb 0
      nxt := st.nxt }
  else if pb ≠ 0 ∧ nb = 0 then
    { st with nxt := Function.update st.nxt pb 0 }
  else
    { heads := st.heads
      nxt := Function.update st.nxt pb nb
      prv := Function.update st.prv nb pb }

/- ===== checker cycle scan (check_for_cycle, lines 790-815) ===== -/

/-- Result of running one bucket's scan of check_for_cycle for a bounded
number of loop iterations. -/
inductive CycRes where
  | found
  | clean
  | fuelOut
deriving DecidableEq, Repr

/-- One bucket's loop in check_for_cycle, transcribed literally: both
iterators start at the head slot's address; each iteration sets
hare = GET(NEXT_FREE(hare)), then, if hare is non-null,
tortoise = GET(NEXT_FREE(hare)), then reports a cycle when the two compare
equal. nf is the NEXT_FREE successor map (for the head slot it yields the
bucket's first member) and 0 encodes NULL. fuel bounds the iterations, so a
diverging loop is visible as fuelOut at every fuel. -/
def check_cycle_run (nf : Nat → Nat) : Nat → Nat → Nat → CycRes
  | 0, _, _ => CycRes.fuelOut
  | fuel + 1, hare, tortoise =>
    if hare = 0 ∨ tortoise = 0 then CycRes.clean
    else
      let h1 := nf hare
      let t1 := if h1 ≠ 0 then nf h1 else tortoise
      if h1 = t1 then CycRes.found
      else check_cycle_run nf fuel h1 t1

/-- A bucket whose members 1 and 2 form a two-node cycle 1 -> 2 -> 1; node 3
plays the head slot, whose stored pointer is 1. -/
def two_cycle (x : Nat) : Nat :=
  if x = 3 then 1 else if x = 1 then 2 else if x = 2 then 1 else 0

/- ===== block-sequence model of the heap (free lines 257-273, coalesce
lines 440-489, place lines 498-520, extend_heap lines 423-434) ===== -/

/-- One header of the in-heap block sequence: the size field and the two
low flag bits, A (this block allocated) and P (previous block allocated). -/
structure Blk where
  bsize : Nat
  al : Bool
  pa : Bool
deriving DecidableEq, Repr

/-- The sequence of real blocks between prologue and epilogue, plus the P bit
stored in the epilogue header. -/
structure HState where
  blks : List Blk
  epiPa : Bool
deriving DecidableEq, Repr

/-- The allocation bit of the last block of a list, with a default for the
empty list (the prologue, which is allocated, when the list is the whole
heap). -/
def lastAlD : Bool → List Blk → Bool
  | a, [] => a
  | _, b :: t => lastAlD b.al t

/-- Invariant I3 as a scan: every block's P bit equals the previous block's
allocation bit, the accumulator carrying the previous bit (true at the start,
for the prologue). -/
def paOk : Bool → List Blk → Bool
  | _, [] => true
  | a, b :: t => (b.pa == a) && paOk b.al t

/-- Invariant I4 as a scan: no two physically adjacent blocks are both free,
the accumulator carrying the previous block's allocation bit (true at the
start, for the prologue). -/
def adjOk : Bool → List Blk → Bool
  | _, [] => true
  | a, b :: t => (a || b.al) && adjOk b.al t

/-- The last block of a list, if any (what PREV_BLKP reaches from the block
after the list). -/
def lastBlk? : List Blk → Option Blk
  | [] => none
  | [b] => some b
  | _ :: c :: t => lastBlk? (c :: t)

/-- A list without its last block. -/
def dropLastB : List Blk → List Blk
  | [] => []
  | [_] => []
  | b :: c :: t => b :: dropLastB (c :: t)

/-- coalesce, acting on the decomposition pre ++ bp :: post of the block
sequence: the 2-bit discriminant is bp's P bit (GET_PREV_ALLOC) and the next
header's A bit (the epilogue, allocated, when post is empty). Merging with
the previous block reads it through its footer, i.e. takes the last block of
pre. The two arms marked unreachable cover discriminant values the
surrounding invariants rule out. -/
def coalesce_st (pre : List Blk) (b : Blk) (post : List Blk) (ep : Bool) : HState :=
  let na : Bool := match post with
    | [] => true
    | n :: _ => n.al
  if b.pa then
    if na then ⟨pre ++ b :: post, ep⟩
    else
      match post with
      | [] => ⟨pre ++ b :: post, ep⟩
      | n :: t => ⟨pre ++ ⟨b.bsize + n.bsize, false, b.pa⟩ :: t, ep⟩
  else
    match lastBlk? pre with
    | none => ⟨pre ++ b :: post, ep⟩
    | some p =>
      if na then ⟨dropLastB pre ++ ⟨p.bsize + b.bsize, false, p.pa⟩ :: post, ep⟩
      else
        match post with
        | [] => ⟨pre ++ b :: post, ep⟩
        | n :: t => ⟨dropLastB pre ++ ⟨p.bsize + b.bsize + n.bsize, false, p.pa⟩ :: t, ep⟩

/-- free, acting on the decomposition pre ++ b :: post: clear the next
header's P bit (the epilogue's, when post is empty), clear b's A bit keeping
its P bit and size, then coalesce. -/
def free_st (pre : List Blk) (b : Blk) (post : List Blk) (ep : Bool) : HState :=
  match post with
  | [] => coalesce_st pre ⟨b.bsize, false, b.pa⟩ [] false
  | n :: t => coalesce_st pre ⟨b.bsize, false, b.pa⟩ (⟨n.bsize, n.al, false⟩ :: t) ep

/-- place, acting on the decomposition pre ++ b :: post of a free block b:
if the remainder is at least MIN_BLOCK_SIZE = 24, split into an allocated
block of asize (P bit preserved) followed by a free remainder with P set,
leaving the block after the remainder untouched; otherwise allocate the whole
block and set the next header's P bit (the epilogue's, when post is empty). -/
def place_st (pre : List Blk) (b : Blk) (post : List Blk) (asize : Nat) (ep : Bool) : HState :=
  if 24 ≤ b.bsize - asize then
    ⟨pre ++ ⟨asize, true, b.pa⟩ :: ⟨b.bsize - asize, false, true⟩ :: post, ep⟩
  else
    match post with
    | [] => ⟨pre ++ [⟨b.bsize, true, b.pa⟩], true⟩
    | n :: t => ⟨pre ++ ⟨b.bsize, true, b.pa⟩ :: ⟨n.bsize, n.al, true⟩ :: t, ep⟩

/-- The free-list traffic of place: remove the chosen block; on a split,
additionally insert the remainder with its size. -/
inductive FLOp where
  | rem (sz : Nat)
  | add (sz : Nat)
deriving DecidableEq, Repr

/-- The sequence of free-list operations place issues. -/
def place_flops (b : Blk) (asize : Nat) : List FLOp :=
  if 24 ≤ b.bsize - asize then
    [FLOp.rem b.bsize, FLOp.add (b.bsize - asize)]
  else
    [FLOp.rem b.bsize]

/-- extend_heap: the new block sits where the old epilogue was and inherits
its P bit; a fresh epilogue is written with P clear; the block is then
coalesced (its physical successor, the new epilogue, is allocated). -/
def extend_st (blks : List Blk) (ep : Bool) (words : Nat) : HState :=
  coalesce_st blks ⟨words, false, ep⟩ [] false

/-- The heap-level invariant: I3 (P bits track the predecessor's A bit,
starting from the allocated prologue), I4 (no two adjacent free blocks), and
the epilogue's P bit equals the last block's A bit. -/
def HeapInv (s : HState) : Prop :=
  paOk true s.blks = true ∧ adjOk true s.blks = true ∧ s.epiPa = lastAlD true s.blks

/-- The states the allocator can reach from a fresh heap (mm_init leaves one
free 168-byte block against the epilogue) by placing an allocation into any
free block large enough (find_fit returns only such blocks), releasing any
allocated block, or extending the heap. realloc and calloc only compose
these metadata transitions. -/
inductive Reach : HState → Prop where
  | init : Reach ⟨[⟨168, false, true⟩], false⟩
  | alloc : ∀ {s : HState} (pre : List Blk) (b : Blk) (post : List Blk) (asize : Nat),
      Reach s → s.blks = pre ++ b :: post → b.al = false → asize ≤ b.bsize →
      Reach (place_st pre b post asize s.epiPa)
  | release : ∀ {s : HState} (pre : List Blk) (b : Blk) (post : List Blk),
      Reach s → s.blks = pre ++ b :: post → b.al = true →
      Reach (free_st pre b post s.epiPa)
  | extend : ∀ {s : HState} (words : Nat),
      Reach s → Reach (extend_st s.blks s.epiPa words)

/- ===== Theorems ===== -/

/-- C1: the claim says every one of the m * s payload bytes is zero before
zeroed_alloc returns. The code's loop zeroes exactly one byte per element
(offsets i * s for i < m): for zeroed_alloc(2, 8) it writes offsets 0 and 8
only, leaving offset 1 (among others) of the 16-byte region untouched. -/
theorem c1_calloc_zeroes_one_byte_per_element :
    calloc_zeroed_offsets 2 8 = [0, 8] ∧ 1 ∉ calloc_zeroed_offsets 2 8 ∧ 1 < 2 * 8 := by
  refine ⟨by decide, by decide, by decide⟩

/-- C2: the claim says the move path of resize copies exactly min(old, n)
bytes. For an old block of total size 24 (oldsize = 24 - 8 = 16 in the
code's accounting) and n = 100, the code hands 100 to memcpy, not
min(16, 100) = 16, so it reads 84 bytes past the old payload. -/
theorem c2_realloc_copies_request_size :
    realloc_copy_bytes 24 100 = some 100 ∧ spec_resize_copy_len 16 100 = 16 ∧ ¬(100 ≤ 16) := by
  refine ⟨by decide, by decide, by decide⟩

/-- C3: the claim says every size s with 16384 < s ≤ 32768 lands in bucket 8.
The source defines LIST7_SIZE as 16834 (a transposition of 16384), so sizes
16385 .. 16834 land in bucket 7: get_index 16500 = 7 while the spec's table
puts 16500 in bucket 8. The 8192 < s ≤ 16384 half of the claim does hold. -/
theorem c3_bucket7_bound_is_16834 :
    get_index 16500 = 7 ∧ spec_bucket 16500 = 8 ∧
    get_index 16834 = 7 ∧ get_index 16835 = 8 ∧ get_index 16384 = 7 := by
  refine ⟨by decide, by decide, by decide, by decide, by decide⟩

/-- C4: the claim says that on OOM alloc, zeroed_alloc and resize all return
null to the caller without writing through an invalid pointer. When the
inner malloc of calloc returns NULL (ptr = 0), the zeroing loop still runs:
for zeroed_alloc(1, 8) it stores through address 0 before returning. -/
theorem c4_calloc_oom_stores_through_null :
    calloc_writes 0 1 8 = [0] ∧ 0 ∈ calloc_writes 0 1 8 := by
  refine ⟨by decide, by decide⟩

/-- C6: malloc's request adjustment: a request of 0 yields NULL without
consulting the heap; requests of 1 .. 16 bytes are adjusted to the minimum
block size 24; larger requests (whose size_t arithmetic does not wrap) are
adjusted to align8(n + 4), the request plus the 4-byte header rounded up to
a multiple of 8. -/
theorem c6_malloc_size_adjust (n : Nat) (h : n + 11 < 2 ^ 64) :
    malloc_asize 0 = none ∧
    (1 ≤ n ∧ n ≤ 16 → malloc_asize n = some 24) ∧
    (16 < n → malloc_asize n = some (align8 (n + 4))) := by
  refine ⟨rfl, ?_, ?_⟩
  · rintro ⟨h1, h2⟩
    unfold malloc_asize
    rw [if_neg (by omega), if_pos h2]
  · intro h16
    unfold malloc_asize
    rw [if_neg (by omega), if_neg (by omega)]
    unfold align8
    rw [Nat.mod_eq_of_lt (by omega), Nat.mod_eq_of_lt (by omega)]

/-- Witness for C6 at concrete requests 8 and 100. -/
theorem c6_witness :
    (100 : Nat) + 11 < 2 ^ 64 ∧ malloc_asize 8 = some 24 ∧
    malloc_asize 100 = some (align8 (100 + 4)) :=
  ⟨by decide, (c6_malloc_size_adjust 8 (by decide)).2.1 ⟨by decide, by decide⟩,
   (c6_malloc_size_adjust 100 (by decide)).2.2 (by decide)⟩

/-- C9: whenever the inner malloc of calloc returns NULL while m > 0, the
zeroing loop writes through the null pointer: in particular for every
zeroed_alloc(m, 0) with m > 0, since malloc(m * 0) = malloc(0) is NULL, the
loop (which has no null test) performs m writes, the first through address 0. -/
theorem c9_calloc_null_write (m : Nat) (hm : 0 < m) :
    malloc_asize (m * 0) = none ∧
    calloc_writes 0 m 0 ≠ [] ∧
    0 ∈ calloc_writes 0 m 0 := by
  refine ⟨by simp [malloc_asize], ?_, ?_⟩
  · intro hnil
    have : (calloc_writes 0 m 0).length = 0 := by rw [hnil]; rfl
    simp [calloc_writes] at this
    omega
  · simp only [calloc_writes, List.mem_map]
    exact ⟨0, by simpa using hm, by simp⟩

/-- Witness for C9 at m = 3. -/
theorem c9_witness :
    0 < 3 ∧ (malloc_asize (3 * 0) = none ∧
      calloc_writes 0 3 0 ≠ [] ∧ 0 ∈ calloc_writes 0 3 0) :=
  ⟨by decide, c9_calloc_null_write 3 (by decide)⟩

/- Helper lemmas about the scans paOk, adjOk, lastAlD over list appends. -/

theorem lastAlD_append (a : Bool) (xs ys : List Blk) :
    lastAlD a (xs ++ ys) = lastAlD (lastAlD a xs) ys := by
  induction xs generalizing a with
  | nil => rfl
  | cons b t ih => simp [lastAlD, ih]

theorem paOk_append (a : Bool) (xs ys : List Blk) :
    paOk a (xs ++ ys) = (paOk a xs && paOk (lastAlD a xs) ys) := by
  induction xs generalizing a with
  | nil => simp [paOk, lastAlD]
  | cons b t ih => simp [paOk, lastAlD, ih, Bool.and_assoc]

theorem adjOk_append (a : Bool) (xs ys : List Blk) :
    adjOk a (xs ++ ys) = (adjOk a xs && adjOk (lastAlD a xs) ys) := by
  induction xs generalizing a with
  | nil => simp [adjOk, lastAlD]
  | cons b t ih => simp [adjOk, lastAlD, ih, Bool.and_assoc]

theorem lastBlk?_concat (xs : List Blk) (p : Blk) : lastBlk? (xs ++ [p]) = some p := by
  induction xs with
  | nil => rfl
  | cons b t ih =>
    cases t with
    | nil => rfl
    | cons c u => simpa [lastBlk?] using ih

theorem dropLastB_concat (xs : List Blk) (p : Blk) : dropLastB (xs ++ [p]) = xs := by
  induction xs with
  | nil => rfl
  | cons b t ih =>
    cases t with
    | nil => rfl
    | cons c u => simpa [dropLastB] using ih

theorem lastAlD_false_split (l : List Blk) :
    ∀ a, lastAlD a l = false → l = [] ∨ ∃ q p, l = q ++ [p] ∧ p.al = false := by
  induction l with
  | nil => intro a _; exact Or.inl rfl
  | cons b t ih =>
    intro a h
    rcases ih b.al h with h1 | ⟨q, p, hq, hp⟩
    · subst h1
      exact Or.inr ⟨[], b, rfl, by simpa [lastAlD] using h⟩
    · exact Or.inr ⟨b :: q, p, by rw [hq]; rfl, hp⟩

theorem lastAlD_true_false (l : List Blk) (h : lastAlD true l = false) :
    ∃ q p, l = q ++ [p] ∧ p.al = false := by
  rcases lastAlD_false_split l true h with h1 | h2
  · subst h1; simp [lastAlD] at h
  · exact h2

/-- place preserves the heap invariant when applied to a free block that can
hold the adjusted size. -/
theorem place_inv (pre : List Blk) (b : Blk) (post : List Blk) (asize : Nat) (ep : Bool)
    (hI : HeapInv ⟨pre ++ b :: post, ep⟩) (hal : b.al = false) :
    HeapInv (place_st pre b post asize ep) := by
  obtain ⟨hpa, hadj, hep⟩ := hI
  simp only [paOk_append, adjOk_append, lastAlD_append, paOk, adjOk, lastAlD,
    Bool.and_eq_true, beq_iff_eq, Bool.or_eq_true] at hpa hadj hep
  unfold place_st HeapInv
  by_cases hsplit : 24 ≤ b.bsize - asize
  · rw [if_pos hsplit]
    simp_all [paOk_append, adjOk_append, lastAlD_append, paOk, adjOk, lastAlD]
  · rw [if_neg hsplit]
    cases post with
    | nil => simp_all [paOk_append, adjOk_append, lastAlD_append, paOk, adjOk, lastAlD]
    | cons n t =>
      simp_all [paOk_append, adjOk_append, lastAlD_append, paOk, adjOk, lastAlD]
      obtain ⟨-, -, hn, ht⟩ := hadj
      rwa [hn] at ht

/-- free preserves the heap invariant when applied to an allocated block. -/
theorem free_inv (pre : List Blk) (b : Blk) (post : List Blk) (ep : Bool)
    (hI : HeapInv ⟨pre ++ b :: post, ep⟩) (hal : b.al = true) :
    HeapInv (free_st pre b post ep) := by
  obtain ⟨hpa, hadj, hep⟩ := hI
  simp only [paOk_append, adjOk_append, lastAlD_append, paOk, adjOk, lastAlD,
    Bool.and_eq_true, beq_iff_eq, Bool.or_eq_true] at hpa hadj hep
  cases post with
  | nil =>
    by_cases hbpa : b.pa = true
    · simp_all [free_st, coalesce_st, HeapInv, paOk_append, adjOk_append,
        lastAlD_append, paOk, adjOk, lastAlD]
    · have hb : b.pa = false := by simpa using hbpa
      have hfa : lastAlD true pre = false := by rw [← hpa.2.1]; exact hb
      rcases lastAlD_true_false pre hfa with ⟨q, p, rfl, hpal⟩
      simp_all [free_st, coalesce_st, HeapInv, lastBlk?_concat, dropLastB_concat,
        paOk_append, adjOk_append, lastAlD_append, paOk, adjOk, lastAlD]
  | cons n t =>
    by_cases hbpa : b.pa = true
    · by_cases hna : n.al = true
      · simp_all [free_st, coalesce_st, HeapInv, paOk_append, adjOk_append,
          lastAlD_append, paOk, adjOk, lastAlD]
      · simp_all [free_st, coalesce_st, HeapInv, paOk_append, adjOk_append,
          lastAlD_append, paOk, adjOk, lastAlD]
    · have hb : b.pa = false := by simpa using hbpa
      have hfa : lastAlD true pre = false := by rw [← hpa.2.1]; exact hb
      rcases lastAlD_true_false pre hfa with ⟨q, p, rfl, hpal⟩
      by_cases hna : n.al = true
      · simp_all [free_st, coalesce_st, HeapInv, lastBlk?_concat, dropLastB_concat,
          paOk_append, adjOk_append, lastAlD_append, paOk, adjOk, lastAlD]
      · simp_all [free_st, coalesce_st, HeapInv, lastBlk?_concat, dropLastB_concat,
          paOk_append, adjOk_append, lastAlD_append, paOk, adjOk, lastAlD]

/-- extend_heap preserves the heap invariant. -/
theorem extend_inv (blks : List Blk) (ep : Bool) (w : Nat)
    (hI : HeapInv ⟨blks, ep⟩) : HeapInv (extend_st blks ep w) := by
  obtain ⟨hpa, hadj, hep⟩ := hI
  by_cases hl : lastAlD true blks = true
  · simp_all [extend_st, coalesce_st, HeapInv, paOk_append, adjOk_append,
      lastAlD_append, paOk, adjOk, lastAlD]
  · have hfa : lastAlD true blks = false := by simpa using hl
    rcases lastAlD_true_false blks hfa with ⟨q, p, rfl, hpal⟩
    simp_all [extend_st, coalesce_st, HeapInv, lastBlk?_concat, dropLastB_concat,
      paOk_append, adjOk_append, lastAlD_append, paOk, adjOk, lastAlD]

/-- Every reachable allocator state satisfies the heap invariant. -/
theorem reach_inv (s : HState) (h : Reach s) : HeapInv s := by
  induction h with
  | init => exact ⟨rfl, rfl, rfl⟩
  | alloc pre b post asize hr hblks hfree hsz ih =>
    apply place_inv
    · rw [← hblks]; exact ih
    · exact hfree
  | release pre b post hr hblks hal ih =>
    apply free_inv
    · rw [← hblks]; exact ih
    · exact hal
  | extend words hr ih => exact extend_inv _ _ _ ih

/-- Helper for C8: once the two iterators reach the pair (1, 2) on the
two-node cycle, the scan alternates between (1, 2) and (2, 1) forever. -/
theorem check_cycle_run_two_cycle_loops (f : Nat) :
    check_cycle_run two_cycle f 1 2 = CycRes.fuelOut ∧
    check_cycle_run two_cycle f 2 1 = CycRes.fuelOut := by
  induction f with
  | zero => exact ⟨rfl, rfl⟩
  | succ f ih =>
    constructor
    · show check_cycle_run two_cycle (f + 1) 1 2 = CycRes.fuelOut
      simp only [check_cycle_run, two_cycle]
      norm_num
      exact ih.2
    · show check_cycle_run two_cycle (f + 1) 2 1 = CycRes.fuelOut
      simp only [check_cycle_run, two_cycle]
      norm_num
      exact ih.1

/-- C8: the claim says the per-bucket scan is a Floyd hare/tortoise that
terminates on every list and reports an error exactly when the list is
cyclic. On the bucket 3 -> 1 -> 2 -> 1 (a two-node cycle between members 1
and 2) the loop never terminates: for every iteration bound the scan is
still running, having reported nothing — the code advances the hare once per
iteration and resets the tortoise to the hare's successor, so it can only
ever detect a self-loop. -/
theorem c8_cycle_scan_diverges :
    (∀ fuel, check_cycle_run two_cycle fuel 3 3 = CycRes.fuelOut) ∧
    two_cycle 3 = 1 ∧ two_cycle 1 = 2 ∧ two_cycle 2 = 1 := by
  refine ⟨?_, by decide, by decide, by decide⟩
  intro fuel
  match fuel with
  | 0 => rfl
  | f + 1 =>
    show check_cycle_run two_cycle (f + 1) 3 3 = CycRes.fuelOut
    simp only [check_cycle_run, two_cycle]
    norm_num
    exact (check_cycle_run_two_cycle_loops f).1

/-- C10: inserting a free block b (of size sz, not currently in any bucket,
so in particular not the head of its bucket) with add_free_blk and then
removing it with rem_free_blk restores all 12 bucket head slots exactly and
restores the next/prev link words of every block other than b itself. The
hypothesis that a non-null bucket head has a null prev link holds in every
state the allocator constructs, since insertion is always at the head. -/
theorem c10_add_rem_roundtrip (st : FLState) (bp sz : Nat)
    (hhd : st.heads (find_list_by_size sz) ≠ bp)
    (hprv : st.heads (find_list_by_size sz) ≠ 0 →
      st.prv (st.heads (find_list_by_size sz)) = 0) :
    (rem_free_blk bp sz (add_free_blk bp sz st)).heads = st.heads ∧
    Function.update (rem_free_blk bp sz (add_free_blk bp sz st)).nxt bp (st.nxt bp) = st.nxt ∧
    Function.update (rem_free_blk bp sz (add_free_blk bp sz st)).prv bp (st.prv bp) = st.prv := by
  by_cases hfit : st.heads (find_list_by_size sz) = 0
  · refine ⟨?_, ?_, ?_⟩ <;> simp [add_free_blk, rem_free_blk, hfit]
  · refine ⟨?_, ?_, ?_⟩ <;> simp [add_free_blk, rem_free_blk, hfit, Ne.symm hhd, hprv hfit]
    funext x
    by_cases hx : x = bp
    · subst hx; simp
    · rw [Function.update_noteq hx]
      by_cases hx2 : x = st.heads (find_list_by_size sz)
      · subst hx2; simp [hprv hfit]
      · rw [Function.update_noteq hx2, Function.update_noteq hx]

/-- Witness for C10: the all-null bucket state, block 8, size 24. -/
theorem c10_witness :
    ((⟨fun _ => 0, fun _ => 0, fun _ => 0⟩ : FLState).heads (find_list_by_size 24) ≠ 8) ∧
    ((rem_free_blk 8 24 (add_free_blk 8 24 ⟨fun _ => 0, fun _ => 0, fun _ => 0⟩)).heads =
      (⟨fun _ => 0, fun _ => 0, fun _ => 0⟩ : FLState).heads ∧
     Function.update (rem_free_blk 8 24
        (add_free_blk 8 24 ⟨fun _ => 0, fun _ => 0, fun _ => 0⟩)).nxt 8
        ((⟨fun _ => 0, fun _ => 0, fun _ => 0⟩ : FLState).nxt 8) =
      (⟨fun _ => 0, fun _ => 0, fun _ => 0⟩ : FLState).nxt ∧
     Function.update (rem_free_blk 8 24
        (add_free_blk 8 24 ⟨fun _ => 0, fun _ => 0, fun _ => 0⟩)).prv 8
        ((⟨fun _ => 0, fun _ => 0, fun _ => 0⟩ : FLState).prv 8) =
      (⟨fun _ => 0, fun _ => 0, fun _ => 0⟩ : FLState).prv) :=
  ⟨by decide,
   c10_add_rem_roundtrip ⟨fun _ => 0, fun _ => 0, fun _ => 0⟩ 8 24
     (by decide) (fun h => absurd rfl h)⟩

/-- C5 counterexample: the claim says that on the split path the block
physically following the remainder has its P bit set to 1. Take a free block
of size 48 (P = 1) followed by an allocated block whose P bit is 0, and place
asize = 24 into it: the remainder is 24 ≥ 24, the split happens, and the
block following the remainder is left bit-for-bit unchanged — its P bit is
still 0, not 1 (correctly so, since its new predecessor, the remainder, is
free). -/
theorem c5_counterexample :
    24 ≤ 48 - 24 ∧
    place_st [] ⟨48, false, true⟩ [⟨24, true, false⟩] 24 false =
      ⟨[⟨24, true, true⟩, ⟨24, false, true⟩, ⟨24, true, false⟩], false⟩ ∧
    ((place_st [] ⟨48, false, true⟩ [⟨24, true, false⟩] 24 false).blks.getD 2
      ⟨0, false, false⟩).pa = false := by
  refine ⟨by decide, by decide, by decide⟩

/-- C5 (amended): in place(block, asize), when the remainder
block.size - asize is at least 24 the block is split: the first asize bytes
are marked allocated preserving the incoming P flag, a free remainder block
with P = 1 is constructed and handed to the free-list insert with its size
(after the block itself was removed with its old size), and every block
after the remainder — in particular the block physically following it — is
left unchanged, its P bit remaining 0 to record that the remainder is free. -/
theorem c5_place_split (pre : List Blk) (b : Blk) (post : List Blk) (asize : Nat) (ep : Bool)
    (hsplit : 24 ≤ b.bsize - asize) :
    (place_st pre b post asize ep).blks =
      pre ++ ⟨asize, true, b.pa⟩ :: ⟨b.bsize - asize, false, true⟩ :: post ∧
    (place_st pre b post asize ep).epiPa = ep ∧
    place_flops b asize = [FLOp.rem b.bsize, FLOp.add (b.bsize - asize)] := by
  unfold place_st place_flops
  rw [if_pos hsplit, if_pos hsplit]
  exact ⟨rfl, rfl, rfl⟩

/-- Witness for C5's amended theorem at the counterexample's input. -/
theorem c5_witness :
    24 ≤ 48 - 24 ∧
    ((place_st [] ⟨48, false, true⟩ [⟨24, true, false⟩] 24 false).blks =
      [] ++ ⟨24, true, true⟩ :: ⟨48 - 24, false, true⟩ :: [⟨24, true, false⟩] ∧
     (place_st [] ⟨48, false, true⟩ [⟨24, true, false⟩] 24 false).epiPa = false ∧
     place_flops ⟨48, false, true⟩ 24 = [FLOp.rem 48, FLOp.add (48 - 24)]) :=
  ⟨by decide, c5_place_split [] ⟨48, false, true⟩ [⟨24, true, false⟩] 24 false (by decide)⟩

/-- C7: in every state the allocator can reach — after init and after any
sequence of placements into free blocks, releases of allocated blocks, and
heap extensions, which is what every public call (alloc, release, resize,
zeroed_alloc) performs on the block metadata — no two physically adjacent
blocks are both free: invariant I4 holds at every public-API boundary. -/
theorem c7_no_adjacent_free (s : HState) (h : Reach s) : adjOk true s.blks = true :=
  (reach_inv s h).2.1

/-- Witness for C7 at the initial heap. -/
theorem c7_witness :
    Reach ⟨[⟨168, false, true⟩], false⟩ ∧
    adjOk true (⟨[⟨168, false, true⟩], false⟩ : HState).blks = true :=
  ⟨Reach.init, c7_no_adjacent_free ⟨[⟨168, false, true⟩], false⟩ Reach.init⟩

end MM
